import Mathlib

/-!
# Verification of the spec-analysis and agent-routing engine

Shallow embedding of `src/multiagent_devops/agent_capabilities.py` and
`src/multiagent_devops/spec_analyzer.py`.

Conventions of the embedding:
* Python strings are Lean `String`s; character-level operations work on
  `String.data`.  The inputs of interest are ASCII, so `Char.toLower`,
  `Char.isDigit`, `Char.isWhitespace` and `Char.isAlphanum` coincide with the
  Python behaviour of `str.lower`, `\d`, `\s` and `\w` on all inputs used here.
* Python dicts (which iterate in insertion order) are association lists
  `List (key × value)`; dict-key lookups that can raise `KeyError` are
  modelled with `Option`.
* Python floats are modelled by `ℚ` (every arithmetic operation performed by
  the code — sums of ±k.0, `len/capacity`, `*100`, `min`) is exact in binary
  floating point for the magnitudes involved, so `ℚ` is faithful);
  `float('inf')` is `(⊤ : WithTop ℚ)`.
* Division that would raise `ZeroDivisionError` is a checked `Option`-valued
  division.
-/

namespace DevOps

/-! ## String primitives (Python `str` operations) -/

/-- Sub-list (contiguous) containment test: `needle` occurs inside `hay`.
Embeds Python's `needle in hay` substring operator on strings. -/
def subList (needle : List Char) : List Char → Bool
  | [] => needle.isEmpty
  | c :: rest => needle.isPrefixOf (c :: rest) || subList needle rest

/-- Python `needle in hay` for strings. -/
def inStr (needle hay : String) : Bool := subList needle.data hay.data

/-- Python `str.lower()` (the data handled by this program is ASCII). -/
def lowerStr (s : String) : String := ⟨s.data.map Char.toLower⟩

/-- Python `str.split('\n')` on the character level: separator-split that
keeps empty fields. -/
def splitOnNl : List Char → List (List Char)
  | [] => [[]]
  | c :: rest =>
    if c = '\n' then [] :: splitOnNl rest
    else
      match splitOnNl rest with
      | [] => [[c]]
      | l :: ls => (c :: l) :: ls

/-- Python `content.split('\n')`. -/
def splitLines (s : String) : List String := (splitOnNl s.data).map String.mk

/-- Helper for `splitWs`: accumulates the current (reversed) word. -/
def splitWsAux : List Char → List Char → List (List Char)
  | [], acc => if acc.isEmpty then [] else [acc.reverse]
  | c :: rest, acc =>
    if c.isWhitespace then
      if acc.isEmpty then splitWsAux rest [] else acc.reverse :: splitWsAux rest []
    else splitWsAux rest (c :: acc)

/-- Python `str.split()` (no argument): split on whitespace runs, dropping
empty fields. -/
def splitWs (s : String) : List String := (splitWsAux s.data []).map String.mk

/-- Python `str.strip()`. -/
def stripStr (s : String) : String :=
  ⟨((s.data.dropWhile Char.isWhitespace).reverse.dropWhile Char.isWhitespace).reverse⟩

/-- Python `s.startswith(p)`. -/
def startsWithStr (p s : String) : Bool := p.data.isPrefixOf s.data

/-! ## `agent_capabilities.py` — data model

`AgentCapability` dataclass (`agent_capabilities.py` lines 13–26). -/

structure AgentCapability where
  name : String
  languages : List String
  frameworks : List String
  tasks : List String
  complexity : String      -- low, medium, high, all
  speed : String           -- slow, medium, fast, fastest
  cost : String            -- free, low, medium, high
  parallel_capacity : Nat  -- Max parallel tasks
  strengths : List String
  weaknesses : List String
  best_for : List String
deriving Repr, DecidableEq

/-- The static registry `AGENT_CAPABILITIES` (`agent_capabilities.py` lines
30–176), as an insertion-ordered association list (Python dicts iterate in
insertion order). -/
def AGENT_CAPABILITIES : List (String × AgentCapability) :=
  [ ("@copilot",
     { name := "GitHub Copilot"
       languages := ["python", "javascript", "typescript", "java", "c#", "go", "ruby"]
       frameworks := ["fastapi", "django", "flask", "express", "react", "vue", "spring"]
       tasks := ["backend", "api", "crud", "database", "implementation", "boilerplate"]
       complexity := "all"
       speed := "fastest"
       cost := "free"
       parallel_capacity := 2
       strengths :=
         [ "Fast bulk code generation"
         , "Pattern recognition and replication"
         , "Boilerplate code creation"
         , "CRUD operations"
         , "API endpoint implementation" ]
       weaknesses :=
         [ "Complex architecture decisions"
         , "Security considerations"
         , "Performance optimization" ]
       best_for :=
         [ "Rapid prototyping"
         , "Backend API development"
         , "Database operations"
         , "Standard implementations" ] })
  , ("@claude",
     { name := "Claude (Anthropic)"
       languages := ["python", "javascript", "typescript", "go", "rust", "c++", "java"]
       frameworks := ["all"]
       tasks := ["architecture", "security", "integration", "review", "complex", "design"]
       complexity := "high"
       speed := "medium"
       cost := "medium"
       parallel_capacity := 1
       strengths :=
         [ "Complex architectural decisions"
         , "Security analysis and implementation"
         , "Code review and quality assurance"
         , "System design and integration"
         , "Strategic technical decisions" ]
       weaknesses :=
         [ "Slower for bulk code generation"
         , "Higher cost for simple tasks" ]
       best_for :=
         [ "Architecture design"
         , "Security reviews"
         , "Complex problem solving"
         , "Integration challenges"
         , "Code quality reviews" ] })
  , ("@codex",
     { name := "OpenAI Codex"
       languages := ["javascript", "typescript", "html", "css", "python"]
       frameworks := ["react", "vue", "angular", "nextjs", "svelte", "tailwind"]
       tasks := ["frontend", "ui", "components", "interactive", "styling", "e2e-testing"]
       complexity := "medium"
       speed := "fast"
       cost := "free"
       parallel_capacity := 2
       strengths :=
         [ "Frontend component development"
         , "Interactive UI creation"
         , "CSS and styling"
         , "Browser-based testing"
         , "Responsive design" ]
       weaknesses :=
         [ "Backend architecture"
         , "Database design"
         , "System-level programming" ]
       best_for :=
         [ "React/Vue/Angular components"
         , "UI/UX implementation"
         , "Frontend testing"
         , "Interactive features"
         , "Design system implementation" ] })
  , ("@qwen",
     { name := "Qwen (Alibaba)"
       languages := ["python", "javascript", "c++", "rust", "go"]
       frameworks := ["numpy", "pandas", "tensorflow", "pytorch", "scikit-learn"]
       tasks := ["optimization", "performance", "algorithms", "testing", "analysis"]
       complexity := "high"
       speed := "medium"
       cost := "low"
       parallel_capacity := 1
       strengths :=
         [ "Performance optimization"
         , "Algorithm implementation"
         , "Data structure optimization"
         , "Test generation and coverage"
         , "Benchmark creation" ]
       weaknesses :=
         [ "UI/UX development"
         , "Creative design tasks" ]
       best_for :=
         [ "Code optimization"
         , "Algorithm improvements"
         , "Performance tuning"
         , "Test suite creation"
         , "Data processing pipelines" ] })
  , ("@gemini",
     { name := "Google Gemini"
       languages := ["markdown", "yaml", "json", "python", "javascript"]
       frameworks := ["documentation", "sphinx", "mkdocs", "docusaurus"]
       tasks := ["documentation", "research", "analysis", "specs", "planning"]
       complexity := "medium"
       speed := "fast"
       cost := "low"
       parallel_capacity := 1
       strengths :=
         [ "Documentation generation"
         , "Research and analysis"
         , "Spec writing"
         , "API documentation"
         , "Code explanation" ]
       weaknesses :=
         [ "Complex implementation"
         , "Performance optimization" ]
       best_for :=
         [ "README creation"
         , "API documentation"
         , "Research tasks"
         , "Spec refinement"
         , "Documentation updates" ] })
  ]

/-! ## `agent_capabilities.py` — scorer and router

`AgentRouter` holds `self.capabilities = AGENT_CAPABILITIES`; the functions
below take the registry as their first argument. -/

/-- `AgentRouter._calculate_match_score` (`agent_capabilities.py` lines
207–251).  `task_desc` is the already-lowercased description (the caller
`recommend_agent` lowercases).  Each Python `for`-loop that conditionally
accumulates into `score` is a `foldl`. -/
def calc_match_score (task_desc : String) (capability : AgentCapability) : ℚ :=
  let score : ℚ := 0
  -- Task type matching (highest weight)
  let score := capability.tasks.foldl
    (fun s task_type => if inStr task_type task_desc then s + 10 else s) score
  -- Language matching
  let score := capability.languages.foldl
    (fun s language => if inStr language task_desc then s + 5 else s) score
  -- Framework matching
  let score := capability.frameworks.foldl
    (fun s framework => if framework != "all" && inStr framework task_desc then s + 5 else s)
    score
  -- Strength keyword matching
  let score := capability.strengths.foldl
    (fun s strength =>
      let strength_keywords := splitWs (lowerStr strength)
      -- `matchCount` is Python's `matches` (a Lean keyword)
      let matchCount : ℚ := strength_keywords.countP (fun kw => inStr kw task_desc)
      s + matchCount * 2) score
  -- Speed preference for simple tasks
  let score :=
    if ["simple", "quick", "basic", "standard"].any (fun kw => inStr kw task_desc) then
      if capability.speed = "fastest" then score + 3
      else if capability.speed = "fast" then score + 2
      else score
    else score
  -- Complexity matching
  let score :=
    if ["complex", "advanced", "sophisticated"].any (fun kw => inStr kw task_desc) then
      if capability.complexity = "high" then score + 3 else score
    else score
  -- Cost consideration for non-critical tasks
  let score :=
    if ["prototype", "demo", "test"].any (fun kw => inStr kw task_desc) then
      if capability.cost = "free" then score + 2
      else if capability.cost = "low" then score + 1
      else score
    else score
  score

/-- The weighted additive sum exactly as the spec words it (§4.2): a plain
sum of independent bonus terms.  Compared against `calc_match_score` in the
refinement theorem for the scorer. -/
def score_spec (task_desc : String) (profile : AgentCapability) : ℚ :=
  10 * (profile.tasks.countP (fun kw => inStr kw task_desc) : ℚ)
  + 5 * (profile.languages.countP (fun kw => inStr kw task_desc) : ℚ)
  + 5 * (profile.frameworks.countP (fun kw => kw != "all" && inStr kw task_desc) : ℚ)
  + 2 * ((profile.strengths.map
      (fun st => ((splitWs (lowerStr st)).countP (fun kw => inStr kw task_desc) : ℚ))).sum)
  + (if ["simple", "quick", "basic", "standard"].any (fun kw => inStr kw task_desc) then
      if profile.speed = "fastest" then 3 else if profile.speed = "fast" then 2 else 0
     else 0)
  + (if ["complex", "advanced", "sophisticated"].any (fun kw => inStr kw task_desc) then
      if profile.complexity = "high" then 3 else 0
     else 0)
  + (if ["prototype", "demo", "test"].any (fun kw => inStr kw task_desc) then
      if profile.cost = "free" then 2 else if profile.cost = "low" then 1 else 0
     else 0)

/-- ℕ-valued twin of `score_spec` (every bonus is a whole number).  Only a
proof device: kernel evaluation of `ℚ` arithmetic is blocked, so concrete
score values are computed here and transported through the cast. -/
def score_nat (task_desc : String) (profile : AgentCapability) : Nat :=
  10 * profile.tasks.countP (fun kw => inStr kw task_desc)
  + 5 * profile.languages.countP (fun kw => inStr kw task_desc)
  + 5 * profile.frameworks.countP (fun kw => kw != "all" && inStr kw task_desc)
  + 2 * ((profile.strengths.map
      (fun st => (splitWs (lowerStr st)).countP (fun kw => inStr kw task_desc))).sum)
  + (if ["simple", "quick", "basic", "standard"].any (fun kw => inStr kw task_desc) then
      if profile.speed = "fastest" then 3 else if profile.speed = "fast" then 2 else 0
     else 0)
  + (if ["complex", "advanced", "sophisticated"].any (fun kw => inStr kw task_desc) then
      if profile.complexity = "high" then 3 else 0
     else 0)
  + (if ["prototype", "demo", "test"].any (fun kw => inStr kw task_desc) then
      if profile.cost = "free" then 2 else if profile.cost = "low" then 1 else 0
     else 0)

/-- The stable max-scan performed by Python's builtin
`max(scores.keys(), key=lambda k: scores[k])`: the current best is replaced
only by a strictly greater value, so the first key attaining the maximum
wins. -/
def maxScan : String → ℚ → List (String × ℚ) → String
  | best, _, [] => best
  | best, bv, (n, v) :: rest => if bv < v then maxScan n v rest else maxScan best bv rest

/-- `AgentRouter.recommend_agent` (`agent_capabilities.py` lines 185–205). -/
def recommend_agent (capabilities : List (String × AgentCapability))
    (task_description : String) : String :=
  let task_lower := lowerStr task_description
  let scores := capabilities.map (fun p => (p.1, calc_match_score task_lower p.2))
  -- Return agent with highest score, default to @copilot
  match scores with
  | [] => "@copilot"
  | (n, v) :: rest => maxScan n v rest

/-- Association-list lookup: Python `d[key]`/`d.get(key)` on an
insertion-ordered dict. -/
def alistFind? {β : Type} (l : List (String × β)) (key : String) : Option β :=
  (l.find? (fun p => p.1 == key)).map (fun p => p.2)

/-- Append `task` to the list stored under `key`; `none` models the
`KeyError` raised by `assignments[key]` when the key is absent. -/
def appendAt : List (String × List String) → String → String →
    Option (List (String × List String))
  | [], _, _ => none
  | (k, v) :: rest, key, task =>
    if k = key then some ((k, v ++ [task]) :: rest)
    else (appendAt rest key task).map (fun r => (k, v) :: r)

/-- `AgentRouter.recommend_agents_for_tasks` (`agent_capabilities.py` lines
253–270): assign every task to its recommended agent, then drop agents with
no assignments. -/
def recommend_agents_for_tasks (capabilities : List (String × AgentCapability))
    (tasks : List String) : Option (List (String × List String)) :=
  let init := capabilities.map (fun p => (p.1, ([] : List String)))
  (tasks.foldlM (fun asg task => appendAt asg (recommend_agent capabilities task) task)
      init).map
    (fun asg => asg.filter (fun p => !p.2.isEmpty))

/-- Checked division: Python `a / b`, which raises `ZeroDivisionError` when
`b = 0`. -/
def divQ (a b : ℚ) : Option ℚ := if b = 0 then none else some (a / b)

/-- `AgentRouter.get_agent_workload` (`agent_capabilities.py` lines 272–289).
Workload values live in `WithTop ℚ` (⊤ is Python's `float('inf')`); the
result is `none` exactly when the Python code would raise (`KeyError` for an
unregistered handle — division by zero cannot actually be reached because of
the `capacity > 0` guard, which is what the safety theorem certifies). -/
def get_agent_workload (capabilities : List (String × AgentCapability)) :
    List (String × List String) → Option (List (String × WithTop ℚ))
  | [] => some []
  | (agent, tasks) :: rest =>
    match alistFind? capabilities agent with
    | none => none                       -- self.capabilities[agent]: KeyError
    | some cap =>
      let wl : Option (WithTop ℚ) :=
        if cap.parallel_capacity > 0 then
          (divQ (tasks.length : ℚ) (cap.parallel_capacity : ℚ)).map
            (fun q => ((q : ℚ) : WithTop ℚ))
        else some ⊤                      -- float('inf')
      match wl with
      | none => none
      | some workload =>
        match get_agent_workload capabilities rest with
        | none => none
        | some ws =>
          -- workloads[agent] = min(workload * 100, 100)  # Cap at 100%
          some ((agent, min (workload * (((100 : ℚ) : WithTop ℚ))) ((100 : ℚ) : WithTop ℚ)) :: ws)

/-- Inner loop of `balance_workload` (lines 321–329): walk the registry in
order looking for the first alternative agent with spare capacity; append the
task there (KeyError if that agent is not a key of `assignments`), or drop
the task silently when no agent has capacity. -/
def placeTaskAux (asg : List (String × List String)) (agent task : String) :
    List (String × AgentCapability) → Option (List (String × List String))
  | [] => some asg                       -- task silently dropped
  | (alt_agent, cap) :: rest =>
    if alt_agent ≠ agent then
      -- current_load = len(assignments.get(alt_agent, []))
      let current_load := ((alistFind? asg alt_agent).getD []).length
      if current_load < cap.parallel_capacity then
        appendAt asg alt_agent task      -- assignments[alt_agent].append(task)
      else placeTaskAux asg agent task rest
    else placeTaskAux asg agent task rest

/-- Replace the value stored under an (existing) key, keeping its position:
Python `assignments[agent] = value` on a present key. -/
def updAt : List (String × List String) → String → List String →
    List (String × List String)
  | [], _, _ => []
  | (k, v) :: rest, key, val =>
    if k = key then (k, val) :: rest else (k, v) :: updAt rest key val

/-- Body of the `for agent in overloaded` loop of `balance_workload` (lines
315–329): truncate the overloaded agent's list to its capacity and try to
re-place each dropped task. -/
def rebalanceAgent (capabilities : List (String × AgentCapability))
    (asg : List (String × List String)) (agent : String) :
    Option (List (String × List String)) :=
  match alistFind? capabilities agent with
  | none => none
  | some cap =>
    match alistFind? asg agent with      -- assignments[agent]: KeyError if absent
    | none => none
    | some cur =>
      let tasks_to_reassign := cur.drop cap.parallel_capacity
      let asg1 := updAt asg agent (cur.take cap.parallel_capacity)
      tasks_to_reassign.foldlM (fun a t => placeTaskAux a agent t capabilities) asg1

/-- The `while ... and iteration < max_iterations` loop of `balance_workload`
(lines 308–332), with the remaining iteration count as fuel. -/
def balanceLoop (capabilities : List (String × AgentCapability)) :
    Nat → List (String × List String) → List (String × WithTop ℚ) →
    Option (List (String × List String))
  | 0, asg, _ => some asg
  | fuel + 1, asg, workloads =>
    if workloads.any (fun p => decide (((100 : ℚ) : WithTop ℚ) < p.2)) then
      let overloaded :=
        (workloads.filter (fun p => decide (((100 : ℚ) : WithTop ℚ) < p.2))).map
          (fun p => p.1)
      match overloaded.foldlM (rebalanceAgent capabilities) asg with
      | none => none
      | some asg1 =>
        match get_agent_workload capabilities asg1 with
        | none => none
        | some ws1 => balanceLoop capabilities fuel asg1 ws1
    else some asg

/-- `AgentRouter.balance_workload` (`agent_capabilities.py` lines 291–334). -/
def balance_workload (capabilities : List (String × AgentCapability))
    (tasks : List String) : Option (List (String × List String)) :=
  -- Initial assignment
  match recommend_agents_for_tasks capabilities tasks with
  | none => none
  | some assignments =>
    -- Calculate workloads
    match get_agent_workload capabilities assignments with
    | none => none
    | some workloads =>
      -- max_iterations = 5
      balanceLoop capabilities 5 assignments workloads

/-- Module-level `recommend_agents` (`agent_capabilities.py` lines 366–378):
uses a fresh `AgentRouter`, i.e. the real registry. -/
def recommend_agents (tasks : List String) : Option (List String) :=
  (recommend_agents_for_tasks AGENT_CAPABILITIES tasks).map
    (fun assignments => assignments.map (fun p => p.1))

/-! ## `spec_analyzer.py` — data model -/

/-- The `requirements` dict built by `_extract_requirements` (lines
331–338).  `SpecAnalysis` initialises the field to the empty dict `{}`,
whose `.get(flag)` is falsy — equivalently this record with all-false
defaults. -/
structure Requirements where
  functional : List String := []
  non_functional : List String := []
  security : Bool := false
  performance : Bool := false
  accessibility : Bool := false
  i18n : Bool := false
deriving Repr, DecidableEq

/-- `SpecAnalysis` dataclass (`spec_analyzer.py` lines 21–34).  The opaque
filesystem `spec_path` (never inspected by the logic) is omitted. -/
structure SpecAnalysis where
  title : String := ""
  description : String := ""
  components_needed : List String := []
  stack_detected : List (String × String) := []
  agents_recommended : List String := []
  deployment_targets : List String := []
  requirements : Requirements := {}
  tasks_count : Nat := 0
  complexity : String := "medium"
  estimated_effort : String := "1-2 weeks"
deriving Repr, DecidableEq

/-- `SpecAnalyzer.COMPONENT_PATTERNS` (lines 41–123): the regular-expression
strings verbatim, in declaration order. -/
def COMPONENT_PATTERNS : List (String × List String) :=
  [ ("multiagent-auth",
      ["\\bauth(?:entication|orization)\\b", "\\blogin\\b", "\\bpassword\\b",
       "\\boauth\\b", "\\bjwt\\b", "\\bsession\\b", "\\buser\\s+management\\b",
       "\\baccess\\s+control\\b"])
  , ("multiagent-payments",
      ["\\bpayment\\b", "\\bstripe\\b", "\\bpaypal\\b", "\\bsubscription\\b",
       "\\bbilling\\b", "\\binvoice\\b", "\\brefund\\b", "\\btransaction\\b"])
  , ("multiagent-testing",
      ["\\btest(?:ing)?\\b", "\\bqa\\b", "\\bquality\\s+assurance\\b",
       "\\bcoverage\\b", "\\be2e\\b", "\\bintegration\\s+test\\b"])
  , ("multiagent-websockets",
      ["\\breal[\\s-]?time\\b", "\\bwebsocket\\b", "\\blive\\s+update\\b",
       "\\bstreaming\\b", "\\bchat\\b", "\\bnotification\\b"])
  , ("multiagent-database",
      ["\\bdatabase\\b", "\\bpostgres(?:ql)?\\b", "\\bmysql\\b", "\\bmongodb?\\b",
       "\\bschema\\b", "\\bmigration\\b"])
  , ("multiagent-cache",
      ["\\bcach(?:e|ing)\\b", "\\bredis\\b", "\\bmemcached?\\b", "\\bcdn\\b",
       "\\bperformance\\b"])
  , ("multiagent-email",
      ["\\bemail\\b", "\\bsmtp\\b", "\\bsendgrid\\b", "\\bmailgun\\b",
       "\\bnewsletter\\b", "\\bnotification\\b"])
  , ("multiagent-storage",
      ["\\bfile\\s+upload\\b", "\\bs3\\b", "\\bblob\\s+storage\\b",
       "\\bimage\\s+upload\\b", "\\bmedia\\b"])
  , ("multiagent-analytics",
      ["\\banalytics\\b", "\\bmetrics\\b", "\\btracking\\b", "\\bdashboard\\b",
       "\\breporting\\b", "\\bvisualization\\b"])
  , ("multiagent-search",
      ["\\bsearch\\b", "\\belasticsearch\\b", "\\bsolr\\b", "\\bindex(?:ing)?\\b",
       "\\bfull[\\s-]?text\\b"])
  ]

/-- `SpecAnalyzer.STACK_PATTERNS` (lines 126–153), verbatim. -/
def STACK_PATTERNS : List (String × List (String × List String)) :=
  [ ("backend",
      [ ("python", ["\\bpython\\b", "\\bdjango\\b", "\\bfastapi\\b", "\\bflask\\b"])
      , ("javascript", ["\\bnode(?:\\.?js)?\\b", "\\bexpress\\b", "\\bnest\\.?js\\b"])
      , ("java", ["\\bjava\\b", "\\bspring\\b", "\\bspringboot\\b"])
      , ("go", ["\\bgolang\\b", "\\b(?<!mon)go\\b", "\\bgin\\b"])
      , ("ruby", ["\\bruby\\b", "\\brails\\b"]) ])
  , ("frontend",
      [ ("react", ["\\breact\\b", "\\bnext\\.?js\\b"])
      , ("vue", ["\\bvue(?:\\.?js)?\\b", "\\bnuxt\\b"])
      , ("angular", ["\\bangular\\b"])
      , ("svelte", ["\\bsvelte\\b", "\\bsveltekit\\b"]) ])
  , ("database",
      [ ("postgresql", ["\\bpostgres(?:ql)?\\b"])
      , ("mysql", ["\\bmysql\\b", "\\bmariadb\\b"])
      , ("mongodb", ["\\bmongodb?\\b"])
      , ("redis", ["\\bredis\\b"])
      , ("sqlite", ["\\bsqlite\\b"]) ])
  , ("deployment",
      [ ("docker", ["\\bdocker\\b", "\\bcontainer\\b"])
      , ("kubernetes", ["\\bkubernetes\\b", "\\bk8s\\b"])
      , ("serverless", ["\\bserverless\\b", "\\blambda\\b", "\\bvercel\\b"])
      , ("vps", ["\\bvps\\b", "\\bdigitalocean\\b", "\\blinode\\b"]) ])
  ]

/-! ## `spec_analyzer.py` — concrete regular-expression matchers

The classifier patterns above are matched by Python's `re` module, which is
external library code; it is modelled below as an oracle parameter
`reSearch : pattern → text → Bool` (the truthiness of
`re.search(pattern, text, re.IGNORECASE)`).  The four task-file patterns,
whose semantics the claims depend on, are embedded concretely. -/

/-- `bool(re.search(r'a|b|c', text))` for a pattern that is a plain
alternation of literals: true iff some literal occurs as a substring. -/
def reSearchLits (lits : List String) (text : String) : Bool :=
  lits.any (fun l => inStr l text)

/-- Truthiness of `re.match(r'^- \[([ x])\] T\d+', line)` (line 251): the
line starts with `- [`, a space or `x`, then `] T` and at least one digit. -/
def taskLineRe (line : String) : Bool :=
  match line.data with
  | '-' :: ' ' :: '[' :: c :: ']' :: ' ' :: 'T' :: d :: _ =>
    (c = ' ' || c = 'x') && d.isDigit
  | _ => false

/-- Python `\w` (ASCII range; the handles in play are ASCII). -/
def isWordChar (c : Char) : Bool := c.isAlphanum || c = '_'

/-- Python `\s` (ASCII range). -/
def isSpaceChar (c : Char) : Bool := c.isWhitespace

/-- Python `.` without DOTALL: any character except a newline. -/
def isDotChar (c : Char) : Bool := c != '\n'

/-- Helper for `findMention`: leftmost-match scan. -/
def findMentionAux : List Char → Option (List Char)
  | [] => none
  | c :: rest =>
    if c = '@' && !(rest.takeWhile isWordChar).isEmpty then
      some (rest.takeWhile isWordChar)
    else findMentionAux rest

/-- `re.search(r'@(\w+)', line)` returning `group(1)` (lines 256–258): the
maximal word-character run after the leftmost `@` that is followed by at
least one word character. -/
def findMention (line : String) : Option String :=
  (findMentionAux line.data).map String.mk

/-- Python `$` without MULTILINE: end of string or just before a trailing
newline. -/
def atEnd : List Char → Bool
  | [] => true
  | [c] => c = '\n'
  | _ => false

/-- All ways `p+` can consume a nonempty prefix of `cs`, in greedy
(longest-first) backtracking order; each entry is the remaining suffix. -/
def plusRests (p : Char → Bool) (cs : List Char) : List (List Char) :=
  let r := (cs.takeWhile p).length
  (List.range r).map (fun k => cs.drop (r - k))

/-- Matcher for `\s+in\s+\S+` immediately followed by `$` (the optional tail
of the task-description pattern), with full backtracking. -/
def optTail (cs : List Char) : Bool :=
  (plusRests isSpaceChar cs).any (fun r1 =>
    match r1 with
    | 'i' :: 'n' :: r2 =>
      (plusRests isSpaceChar r2).any (fun r3 =>
        (plusRests (fun c => !isSpaceChar c) r3).any (fun r4 => atEnd r4))
    | _ => false)

/-- The lazy group `(.+?)` followed by `(?:\s+in\s+\S+)?$`: grow the capture
one character at a time (never across a newline) and stop at the first
length where the rest of the pattern matches — trying the optional tail
(greedy `?`) before the bare `$`. -/
def lazyGroup (acc : List Char) : List Char → Option (List Char)
  | [] => none
  | c :: rest =>
    if isDotChar c then
      let acc1 := acc ++ [c]
      if optTail rest || atEnd rest then some acc1 else lazyGroup acc1 rest
    else none

/-- After the literal `@`: `\w+` then `\s+` (both greedy, with
backtracking), then the lazy group. -/
def afterAt (cs : List Char) : Option (List Char) :=
  (plusRests isWordChar cs).findSome? (fun r1 =>
    (plusRests isSpaceChar r1).findSome? (fun r2 => lazyGroup [] r2))

/-- Leftmost search for `@\w+\s+(.+?)(?:\s+in\s+\S+)?$` returning
`group(1)`. -/
def searchDescRe : List Char → Option (List Char)
  | [] => none
  | c :: rest =>
    if c = '@' then
      match afterAt rest with
      | some g => some g
      | none => searchDescRe rest
    else searchDescRe rest

/-- `SpecAnalyzer._extract_task_description` (lines 270–276). -/
def extract_task_description (task_line : String) : String :=
  match searchDescRe task_line.data with
  | some g => String.mk g
  | none => task_line

/-! ## `spec_analyzer.py` — the analyzer -/

/-- Python `stack[category] = tech` on an insertion-ordered dict: overwrite
in place or append a fresh key. -/
def dictSet : List (String × String) → String → String → List (String × String)
  | [], key, val => [(key, val)]
  | (k, v) :: rest, key, val =>
    if k = key then (k, val) :: rest else (k, v) :: dictSet rest key val

/-- The technology loop of the stack detection (lines 225–231): first
technology (in declared order) with a matching pattern wins; the loop over
technologies is left as soon as the category is present in the dict. -/
def stackCatLoop (reSearch : String → String → Bool) (content_lower : String)
    (cat : String) : List (String × List String) → List (String × String) →
    List (String × String)
  | [], st => st
  | (tech, pats) :: rest, st =>
    let st1 := if pats.any (fun pat => reSearch pat content_lower) then
        dictSet st cat tech
      else st
    if (alistFind? st1 cat).isSome then st1
    else stackCatLoop reSearch content_lower cat rest st1

/-- The description scan of `_analyze_content` (lines 206–213): collect the
stripped non-heading lines of the first paragraph after the first line,
stopping at the first blank line once inside the paragraph. -/
def descLinesAux : List String → Bool → List String
  | [], _ => []
  | line :: rest, in_paragraph =>
    if !(stripStr line).isEmpty && !startsWithStr "#" line then
      stripStr line :: descLinesAux rest true
    else if in_paragraph && (stripStr line).isEmpty then []
    else descLinesAux rest in_paragraph

/-- `SpecAnalyzer._determine_deployment_targets` (lines 299–327).
`stack.get('backend')` is truthy iff the key is present (detected
technologies are non-empty strings). -/
def determine_deployment_targets (content : String)
    (stack : List (String × String)) : List String :=
  let targets : List String := []
  -- Docker is almost always appropriate
  let targets :=
    if inStr "docker" content || inStr "container" content then targets ++ ["docker"]
    else if (alistFind? stack "backend").isSome then targets ++ ["docker"]
    else targets
  -- Kubernetes for scale mentions
  let targets :=
    if ["scale", "kubernetes", "k8s", "cluster"].any (fun w => inStr w content) then
      targets ++ ["kubernetes"]
    else targets
  -- Serverless for specific frameworks
  let targets :=
    if ["lambda", "vercel", "netlify", "serverless"].any (fun w => inStr w content) then
      targets ++ ["serverless"]
    else targets
  -- VPS for simple deployments
  let targets :=
    if ["vps", "digitalocean", "linode", "simple"].any (fun w => inStr w content) then
      targets ++ ["vps"]
    else targets
  -- Default to docker if nothing specific
  if targets.isEmpty then targets ++ ["docker"] else targets

/-- `SpecAnalyzer._extract_requirements` (lines 329–363).  The loop state is
`(in_requirements, current_type = functional?, functional, non_functional)`;
note that `'functional' in line` is also true of `non-functional` lines, so
the first branch of the inner test captures both (faithful to the source). -/
def extract_requirements (content : String) : Requirements :=
  let step := fun (st : Bool × Bool × List String × List String) (line : String) =>
    if inStr "requirement" (lowerStr line) then
      (true, st.2.1, st.2.2.1, st.2.2.2)
    else if st.1 && startsWithStr "-" line then
      let req_text := stripStr (String.mk (line.data.drop 1))
      if inStr "functional" (lowerStr line) then (st.1, true, st.2.2.1, st.2.2.2)
      else if inStr "non-functional" (lowerStr line) then (st.1, false, st.2.2.1, st.2.2.2)
      else if st.2.1 then (st.1, st.2.1, st.2.2.1 ++ [req_text], st.2.2.2)
      else (st.1, st.2.1, st.2.2.1, st.2.2.2 ++ [req_text])
    else st
  let fin := (splitLines content).foldl step (false, true, [], [])
  let content_lower := lowerStr content
  { functional := fin.2.2.1
    non_functional := fin.2.2.2
    security := reSearchLits ["security", "auth", "encrypt"] content_lower
    performance := reSearchLits ["performance", "fast", "optimiz"] content_lower
    accessibility := reSearchLits ["accessibility", "a11y", "wcag"] content_lower
    i18n := reSearchLits ["i18n", "international", "localization"] content_lower }

/-- `SpecAnalyzer._analyze_content` (lines 193–242), parametrised by the
regex engine for the classifier patterns. -/
def analyze_content (reSearch : String → String → Bool) (content : String)
    (analysis : SpecAnalysis) : SpecAnalysis :=
  let content_lower := lowerStr content
  let lines := splitLines content
  -- Extract title (first line starting with '# ')
  let title := match lines.find? (fun line => startsWithStr "# " line) with
    | some line => stripStr (String.mk (line.data.drop 2))
    | none => analysis.title
  -- Find first paragraph as description
  let description := " ".intercalate (descLinesAux (lines.drop 1) false)
  -- Detect needed components
  let components := COMPONENT_PATTERNS.foldl
    (fun comps cp =>
      if cp.2.any (fun pat => reSearch pat content_lower) then
        if comps.contains cp.1 then comps else comps ++ [cp.1]
      else comps)
    analysis.components_needed
  -- Detect technology stack
  let stack := STACK_PATTERNS.foldl
    (fun st cat => stackCatLoop reSearch content_lower cat.1 cat.2 st)
    analysis.stack_detected
  { analysis with
    title := title
    description := description
    components_needed := components
    stack_detected := stack
    deployment_targets := determine_deployment_targets content_lower stack
    requirements := extract_requirements content }

/-- Python `set.add` modelled as first-insertion-ordered, duplicate-free
append (the set's iteration order is unspecified in Python, so theorems
about lists built from it are membership statements only). -/
def insertIfAbsent (l : List String) (x : String) : List String :=
  if l.contains x then l else l ++ [x]

/-- The per-line scan of `_analyze_tasks` (lines 249–258): count matching
lines, collect them, and collect the first `@`-mention of each. -/
def scanTaskLine (st : Nat × List String × List String) (line : String) :
    Nat × List String × List String :=
  if taskLineRe line then
    ( st.1 + 1
    , st.2.1 ++ [line]
    , match findMention line with
      | some g => insertIfAbsent st.2.2 ("@" ++ g)
      | none => st.2.2 )
  else st

/-- `SpecAnalyzer._analyze_tasks` (lines 244–268). -/
def analyze_tasks (content : String) (analysis : SpecAnalysis) :
    Option SpecAnalysis :=
  let scanned := (splitLines content).foldl scanTaskLine (0, [], [])
  let analysis1 := { analysis with tasks_count := analysis.tasks_count + scanned.1 }
  -- If agents are already assigned, use those
  if !scanned.2.2.isEmpty then
    some { analysis1 with agents_recommended := scanned.2.2 }
  else
    -- Otherwise, recommend based on task descriptions
    let task_descriptions := scanned.2.1.map extract_task_description
    match recommend_agents task_descriptions with
    | none => none
    | some ags => some { analysis1 with agents_recommended := ags }

/-- `SpecAnalyzer._enhance_from_plan` (lines 278–297).  All three checks are
`re.search` on alternations of literals. -/
def enhance_from_plan (content : String) (analysis : SpecAnalysis) :
    SpecAnalysis :=
  let content_lower := lowerStr content
  let ags := analysis.agents_recommended
  -- Look for performance requirements
  let ags :=
    if reSearchLits ["performance", "fast", "speed", "optimiz"] content_lower then
      if ags.contains "@qwen" then ags else ags ++ ["@qwen"]
    else ags
  -- Look for security requirements
  let ags :=
    if reSearchLits ["security", "auth", "encrypt", "secure"] content_lower then
      if ags.contains "@claude" then ags else ags ++ ["@claude"]
    else ags
  -- Look for UI/frontend requirements
  let ags :=
    if reSearchLits ["ui", "frontend", "react", "component", "interactive"] content_lower then
      if ags.contains "@codex" then ags else ags ++ ["@codex"]
    else ags
  { analysis with agents_recommended := ags }

/-- The weighted complexity score computed by `_calculate_complexity`
(lines 367–391). -/
def complexity_score (analysis : SpecAnalysis) : ℚ :=
  let s : ℚ := 0
  -- Factor in number of components
  let s := s + (analysis.components_needed.length : ℚ) * 2
  -- Factor in number of tasks
  let s := if analysis.tasks_count < 20 then s + 1
    else if analysis.tasks_count < 50 then s + 3
    else s + 5
  -- Factor in stack diversity
  let s := s + (analysis.stack_detected.length : ℚ) * (1.5 : ℚ)
  -- Factor in requirements
  let s := if analysis.requirements.security then s + 2 else s
  let s := if analysis.requirements.performance then s + 2 else s
  let s := if analysis.requirements.accessibility then s + 1 else s
  let s := if analysis.requirements.i18n then s + 1 else s
  s

/-- `SpecAnalyzer._calculate_complexity` (lines 365–404). -/
def calculate_complexity (analysis : SpecAnalysis) : SpecAnalysis :=
  let cs := complexity_score analysis
  if cs < 5 then
    { analysis with complexity := "low", estimated_effort := "3-5 days" }
  else if cs < 15 then
    { analysis with complexity := "medium", estimated_effort := "1-2 weeks" }
  else
    { analysis with complexity := "high", estimated_effort := "3-4 weeks" }

/-- `SpecAnalyzer.analyze_spec` (lines 158–191).  A spec directory is
abstracted to the three optional file contents (`None` = file absent). -/
def analyze_spec (reSearch : String → String → Bool)
    (spec_md tasks_md plan_md : Option String) : Option SpecAnalysis :=
  let analysis : SpecAnalysis := {}
  -- Read spec.md file
  let analysis := match spec_md with
    | some content => analyze_content reSearch content analysis
    | none => analysis
  -- Read tasks.md for task count and complexity
  match (match tasks_md with
         | some tasks_content => analyze_tasks tasks_content analysis
         | none => some analysis) with
  | none => none
  | some analysis =>
    -- Read plan.md for additional context
    let analysis := match plan_md with
      | some plan_content => enhance_from_plan plan_content analysis
      | none => analysis
    -- Calculate complexity and effort
    some (calculate_complexity analysis)

/-! ## Spec-side comparison definitions

The two definitions below are written from the SPEC's words (not from the
source); they exist only to be compared against the embedded code. -/

/-- The checklist-line shape as the spec words it: `- [ ] ` (unchecked box)
then `T` and exactly three digits (a fourth digit must not follow). -/
def specTaskLine (line : String) : Bool :=
  match line.data with
  | '-' :: ' ' :: '[' :: ' ' :: ']' :: ' ' :: 'T' :: d1 :: d2 :: d3 :: rest =>
    d1.isDigit && d2.isDigit && d3.isDigit &&
      (match rest with | [] => true | c :: _ => !c.isDigit)
  | _ => false

/-- Number of lines of the spec's checklist shape. -/
def specTaskLineCount (content : String) : Nat :=
  (splitLines content).countP specTaskLine

/-- Every `@handle` mention occurring in a line — each position where `@` is
followed by at least one word character — as the spec's phrase
"the set of mentioned handles" reads. -/
def allMentionsAux : List Char → List String
  | [] => []
  | c :: rest =>
    if c = '@' && !(rest.takeWhile isWordChar).isEmpty then
      ("@" ++ String.mk (rest.takeWhile isWordChar)) :: allMentionsAux rest
    else allMentionsAux rest

/-- All `@handle` mentions of a line. -/
def lineMentions (line : String) : List String := allMentionsAux line.data

/-! ## General helper lemmas -/

/-- A `foldl` that conditionally adds the constant `k` counts the matches. -/
theorem foldl_if_count {α : Type} (p : α → Bool) (k : ℚ) :
    ∀ (l : List α) (init : ℚ),
      l.foldl (fun s x => if p x then s + k else s) init = init + k * l.countP p
  | [], init => by simp
  | x :: l, init => by
    rw [List.foldl_cons, List.countP_cons, foldl_if_count p k l]
    by_cases h : p x
    · simp only [h, if_pos, Nat.cast_add, Nat.cast_one, cond_true]
      ring
    · simp [h]

/-- A `foldl` that adds a function of each element sums it. -/
theorem foldl_add_sum {α : Type} (g : α → ℚ) :
    ∀ (l : List α) (init : ℚ),
      l.foldl (fun s x => s + g x) init = init + (l.map g).sum
  | [], init => by simp
  | x :: l, init => by
    rw [List.foldl_cons, List.map_cons, List.sum_cons, foldl_add_sum g l]
    ring

theorem sum_map_mul_two {α : Type} (g : α → ℚ) :
    ∀ l : List α, (l.map (fun x => g x * 2)).sum = 2 * (l.map g).sum
  | [] => by simp
  | x :: l => by
    rw [List.map_cons, List.sum_cons, List.map_cons, List.sum_cons,
      sum_map_mul_two g l]
    ring

/-- Membership in Python's "append if absent" idiom. -/
theorem mem_if_contains_self (l : List String) (x : String) :
    x ∈ (if l.contains x then l else l ++ [x]) := by
  by_cases h : x ∈ l
  · split <;> simp [h]
  · split <;> simp_all

/-- "Append if absent" preserves membership. -/
theorem mem_if_contains_mono (l : List String) (x y : String) (hy : y ∈ l) :
    y ∈ (if l.contains x then l else l ++ [x]) := by
  split <;> simp [hy]

/-- One conditional `ensure this handle is present` step of
`_enhance_from_plan` preserves membership. -/
theorem step_mono (p : Prop) [Decidable p] (l : List String) (x y : String)
    (hy : y ∈ l) : y ∈ (if p then if l.contains x then l else l ++ [x] else l) := by
  split
  · exact mem_if_contains_mono l x y hy
  · exact hy

/-- When its condition holds, an `ensure present` step makes its handle a
member. -/
theorem step_self (p : Prop) [Decidable p] (hp : p) (l : List String)
    (x : String) : x ∈ (if p then if l.contains x then l else l ++ [x] else l) := by
  rw [if_pos hp]
  exact mem_if_contains_self l x

/-- A two-tier conditional bonus (`if p: if q: score += u; elif r: score += v`)
is the unchanged score plus an independent bonus term. -/
theorem ite_bonus (p q r : Prop) [Decidable p] [Decidable q] [Decidable r]
    (x u v : ℚ) :
    (if p then (if q then x + u else if r then x + v else x) else x)
      = x + (if p then (if q then u else if r then v else 0) else 0) := by
  split_ifs <;> ring

/-- A single conditional bonus (`if p: if q: score += u`). -/
theorem ite_bonus2 (p q : Prop) [Decidable p] [Decidable q] (x u : ℚ) :
    (if p then (if q then x + u else x) else x)
      = x + (if p then (if q then u else 0) else 0) := by
  split_ifs <;> ring

/-! ## C4 — the scorer -/

/-- The scorer agrees with the spec-side additive formula (shared helper). -/
theorem calc_eq_spec_aux (task_desc : String) (profile : AgentCapability) :
    calc_match_score task_desc profile = score_spec task_desc profile := by
  unfold calc_match_score score_spec
  simp only [foldl_if_count, foldl_add_sum, sum_map_mul_two, ite_bonus, ite_bonus2]
  ring

/-- The spec-side score formula is the cast of its ℕ-valued twin (shared
helper: lets concrete scores be computed by `decide`). -/
theorem score_spec_eq_nat (task_desc : String) (profile : AgentCapability) :
    score_spec task_desc profile = (score_nat task_desc profile : ℚ) := by
  unfold score_spec score_nat
  push_cast [apply_ite (fun n : ℕ => (n : ℚ)), Nat.cast_list_sum, List.map_map]
  ring_nf
  simp only [Function.comp_def]
  ring

/-- **C4**: for every task description and every agent profile, the scorer
equals the spec's weighted additive sum (+10 per task-type keyword, +5 per
language, +5 per framework with `"all"` never compared, +2 per strength
word, the speed / complexity / cost bonuses), and is therefore always
non-negative. -/
theorem calc_match_score_correct (task_desc : String) (profile : AgentCapability) :
    calc_match_score task_desc profile = score_spec task_desc profile
      ∧ 0 ≤ calc_match_score task_desc profile := by
  have heq := calc_eq_spec_aux task_desc profile
  refine ⟨heq, ?_⟩
  rw [heq]
  unfold score_spec
  have hsum : 0 ≤ (profile.strengths.map
      (fun st => ((splitWs (lowerStr st)).countP (fun kw => inStr kw task_desc) : ℚ))).sum := by
    apply List.sum_nonneg
    intro x hx
    obtain ⟨st, _, rfl⟩ := List.mem_map.mp hx
    positivity
  refine add_nonneg (add_nonneg (add_nonneg (add_nonneg (add_nonneg
    (add_nonneg ?_ ?_) ?_) ?_) ?_) ?_) ?_
  · positivity
  · positivity
  · positivity
  · linarith
  · split_ifs <;> norm_num
  · split_ifs <;> norm_num
  · split_ifs <;> norm_num

/-! ## C10 — complexity thresholds -/

/-- **C10**: the complexity buckets have lower-bound-inclusive thresholds
(score < 5 → low / "3-5 days"; 5 ≤ score < 15 → medium / "1-2 weeks";
15 ≤ score → high / "3-4 weeks") and the effort string is determined 1:1 by
the bucket. -/
theorem calculate_complexity_correct (a : SpecAnalysis) :
    (complexity_score a < 5 →
      (calculate_complexity a).complexity = "low" ∧
      (calculate_complexity a).estimated_effort = "3-5 days")
    ∧ (5 ≤ complexity_score a → complexity_score a < 15 →
      (calculate_complexity a).complexity = "medium" ∧
      (calculate_complexity a).estimated_effort = "1-2 weeks")
    ∧ (15 ≤ complexity_score a →
      (calculate_complexity a).complexity = "high" ∧
      (calculate_complexity a).estimated_effort = "3-4 weeks")
    ∧ ((calculate_complexity a).complexity = "low" ↔
      (calculate_complexity a).estimated_effort = "3-5 days")
    ∧ ((calculate_complexity a).complexity = "medium" ↔
      (calculate_complexity a).estimated_effort = "1-2 weeks")
    ∧ ((calculate_complexity a).complexity = "high" ↔
      (calculate_complexity a).estimated_effort = "3-4 weeks") := by
  simp only [calculate_complexity]
  split_ifs with h1 h2
  · exact ⟨fun _ => ⟨rfl, rfl⟩,
      fun h5 _ => absurd h1 (not_lt.mpr h5),
      fun h15 => absurd h1 (not_lt.mpr (by linarith)),
      by simp, by simp, by simp⟩
  · exact ⟨fun h => absurd h h1,
      fun _ _ => ⟨rfl, rfl⟩,
      fun h15 => absurd h2 (not_lt.mpr h15),
      by simp, by simp, by simp⟩
  · exact ⟨fun h => absurd h h1,
      fun _ h15 => absurd h15 h2,
      fun _ => ⟨rfl, rfl⟩,
      by simp, by simp, by simp⟩

/-- Witness for C10 at a concrete analysis whose score is exactly 5
(two components → 4, fewer than 20 tasks → +1): the boundary falls in the
"medium" bucket. -/
theorem calculate_complexity_correct_witness :
    (5 : ℚ) ≤ complexity_score { components_needed := ["a", "b"] }
    ∧ complexity_score { components_needed := ["a", "b"] } < 15
    ∧ ((calculate_complexity { components_needed := ["a", "b"] }).complexity = "medium" ∧
        (calculate_complexity { components_needed := ["a", "b"] }).estimated_effort = "1-2 weeks") :=
  ⟨by norm_num [complexity_score], by norm_num [complexity_score],
    (calculate_complexity_correct { components_needed := ["a", "b"] }).2.1
      (by norm_num [complexity_score]) (by norm_num [complexity_score])⟩

/-! ## C9 — plan enhancement is additive -/

/-- **C9**: `_enhance_from_plan` never removes a recommended handle, and
afterwards "@qwen" is present whenever a performance keyword matches the
plan content, "@claude" whenever a security keyword matches, and "@codex"
whenever a UI keyword matches. -/
theorem enhance_from_plan_correct (content : String) (a : SpecAnalysis) :
    (∀ h, h ∈ a.agents_recommended →
      h ∈ (enhance_from_plan content a).agents_recommended)
    ∧ (reSearchLits ["performance", "fast", "speed", "optimiz"] (lowerStr content) = true →
      "@qwen" ∈ (enhance_from_plan content a).agents_recommended)
    ∧ (reSearchLits ["security", "auth", "encrypt", "secure"] (lowerStr content) = true →
      "@claude" ∈ (enhance_from_plan content a).agents_recommended)
    ∧ (reSearchLits ["ui", "frontend", "react", "component", "interactive"] (lowerStr content) = true →
      "@codex" ∈ (enhance_from_plan content a).agents_recommended) := by
  refine ⟨?_, ?_, ?_, ?_⟩
  · intro h hm
    exact step_mono _ _ _ _ (step_mono _ _ _ _ (step_mono _ _ _ _ hm))
  · intro hp
    exact step_mono _ _ _ _ (step_mono _ _ _ _ (step_self _ hp _ _))
  · intro hp
    exact step_mono _ _ _ _ (step_self _ hp _ _)
  · intro hp
    exact step_self _ hp _ _

/-- Witness for C9 at a concrete plan content matching all three keyword
families and a concrete prior recommendation list. -/
theorem enhance_from_plan_correct_witness :
    "@gemini" ∈ (enhance_from_plan "Fast secure UI work"
        { agents_recommended := ["@gemini"] }).agents_recommended
    ∧ "@qwen" ∈ (enhance_from_plan "Fast secure UI work"
        { agents_recommended := ["@gemini"] }).agents_recommended
    ∧ "@claude" ∈ (enhance_from_plan "Fast secure UI work"
        { agents_recommended := ["@gemini"] }).agents_recommended
    ∧ "@codex" ∈ (enhance_from_plan "Fast secure UI work"
        { agents_recommended := ["@gemini"] }).agents_recommended :=
  ⟨(enhance_from_plan_correct "Fast secure UI work" { agents_recommended := ["@gemini"] }).1
      "@gemini" (by decide),
   (enhance_from_plan_correct "Fast secure UI work" { agents_recommended := ["@gemini"] }).2.1
      (by decide),
   (enhance_from_plan_correct "Fast secure UI work" { agents_recommended := ["@gemini"] }).2.2.1
      (by decide),
   (enhance_from_plan_correct "Fast secure UI work" { agents_recommended := ["@gemini"] }).2.2.2
      (by decide)⟩

/-! ## C6 — recommend_agent is a stable argmax -/

/-- The max-scan splits its input at the returned key: everything before it
scores strictly less (the first maximum wins), everything after scores no
more. -/
theorem maxScan_split :
    ∀ (l : List (String × ℚ)) (b : String) (v : ℚ),
      ∃ pre w post,
        (b, v) :: l = pre ++ (maxScan b v l, w) :: post
          ∧ (∀ q ∈ pre, q.2 < w) ∧ (∀ q ∈ post, q.2 ≤ w)
  | [], b, v => ⟨[], v, [], rfl, by simp, by simp⟩
  | (n, x) :: rest, b, v => by
    by_cases h : v < x
    · obtain ⟨pre, w, post, heq, hpre, hpost⟩ := maxScan_split rest n x
      have hscan : maxScan b v ((n, x) :: rest) = maxScan n x rest := by
        simp [maxScan, h]
      have hvw : v < w := by
        cases pre with
        | nil =>
          rw [List.nil_append] at heq
          injection heq with h1 h2
          have hx : x = w := congrArg Prod.snd h1
          exact hx ▸ h
        | cons p pre1 =>
          rw [List.cons_append] at heq
          injection heq with h1 h2
          have hp := hpre p (List.mem_cons_self p pre1)
          rw [← h1] at hp
          exact h.trans hp
      refine ⟨(b, v) :: pre, w, post, ?_, ?_, hpost⟩
      · rw [hscan]
        exact congrArg (List.cons (b, v)) heq
      · intro q hq
        rcases List.mem_cons.mp hq with hq | hq
        · rw [hq]; exact hvw
        · exact hpre q hq
    · obtain ⟨pre, w, post, heq, hpre, hpost⟩ := maxScan_split rest b v
      have hscan : maxScan b v ((n, x) :: rest) = maxScan b v rest := by
        simp [maxScan, h]
      cases pre with
      | nil =>
        rw [List.nil_append] at heq
        injection heq with h1 h2
        refine ⟨[], w, (n, x) :: post, ?_, by simp, ?_⟩
        · rw [List.nil_append, hscan, ← h1, ← h2]
        · intro q hq
          rcases List.mem_cons.mp hq with hq | hq
          · rw [hq]
            have hw : w = v := (congrArg Prod.snd h1).symm
            rw [hw]
            exact le_of_not_lt h
          · exact hpost q hq
      | cons p pre1 =>
        rw [List.cons_append] at heq
        injection heq with h1 h2
        have hvw : v < w := by
          have hp := hpre p (List.mem_cons_self p pre1)
          rw [← h1] at hp
          exact hp
        refine ⟨(b, v) :: (n, x) :: pre1, w, post, ?_, ?_, hpost⟩
        · rw [hscan, List.cons_append, List.cons_append, ← h2]
        · intro q hq
          rcases List.mem_cons.mp hq with hq | hq
          · rw [hq]; exact hvw
          rcases List.mem_cons.mp hq with hq | hq
          · rw [hq]
            exact lt_of_le_of_lt (le_of_not_lt h) hvw
          · exact hpre q (List.mem_cons_of_mem p hq)

/-- **C6**: for every registry and task description, `recommend_agent`
returns the handle whose score is maximal, ties broken by registry order
(the scored registry splits at the returned handle, with all earlier scores
strictly smaller and all later scores no larger); an empty registry falls
back to "@copilot". -/
theorem recommend_agent_correct (capabilities : List (String × AgentCapability))
    (task_description : String) :
    (capabilities = [] → recommend_agent capabilities task_description = "@copilot")
    ∧ (capabilities ≠ [] →
      ∃ pre w post,
        capabilities.map
            (fun p => (p.1, calc_match_score (lowerStr task_description) p.2))
          = pre ++ (recommend_agent capabilities task_description, w) :: post
        ∧ (∀ q ∈ pre, q.2 < w) ∧ (∀ q ∈ post, q.2 ≤ w)) := by
  constructor
  · intro h
    subst h
    rfl
  · intro h
    match capabilities, h with
    | (n, c) :: tl, _ =>
      have hrec : recommend_agent ((n, c) :: tl) task_description
          = maxScan n (calc_match_score (lowerStr task_description) c)
              (tl.map (fun p => (p.1, calc_match_score (lowerStr task_description) p.2))) := rfl
      rw [List.map_cons, hrec]
      exact maxScan_split _ n _

/-- Witness for C6 on the real registry and a concrete description. -/
theorem recommend_agent_correct_witness :
    ∃ pre w post,
      AGENT_CAPABILITIES.map
          (fun p => (p.1, calc_match_score (lowerStr "build a simple api") p.2))
        = pre ++ (recommend_agent AGENT_CAPABILITIES "build a simple api", w) :: post
      ∧ (∀ q ∈ pre, q.2 < w) ∧ (∀ q ∈ post, q.2 ≤ w) :=
  (recommend_agent_correct AGENT_CAPABILITIES "build a simple api").2 (by decide)

/-! ## C5 — workload computation is safe and clamped -/

/-- Workload safety (shared helper; see the C5 theorem below for the claim
statement). -/
theorem workload_safe_aux (capabilities : List (String × AgentCapability)) :
    ∀ assignments : List (String × List String),
      (∀ p ∈ assignments, (alistFind? capabilities p.1).isSome) →
      ∃ ws, get_agent_workload capabilities assignments = some ws
        ∧ ∀ q ∈ ws, q.2 ≤ ((100 : ℚ) : WithTop ℚ)
  | [], _ => ⟨[], rfl, by simp⟩
  | (agent, tasks) :: rest, h => by
    obtain ⟨cap, hcap⟩ :=
      Option.isSome_iff_exists.mp (h (agent, tasks) (List.mem_cons_self _ _))
    obtain ⟨ws, hws, hle⟩ := workload_safe_aux capabilities rest
      (fun p hp => h p (List.mem_cons_of_mem _ hp))
    have hwl : ∃ workload : WithTop ℚ,
        (if cap.parallel_capacity > 0 then
          (divQ (tasks.length : ℚ) (cap.parallel_capacity : ℚ)).map
            (fun q => ((q : ℚ) : WithTop ℚ))
        else some ⊤) = some workload := by
      by_cases hc : cap.parallel_capacity > 0
      · refine ⟨(((tasks.length : ℚ) / (cap.parallel_capacity : ℚ) : ℚ) : WithTop ℚ), ?_⟩
        rw [if_pos hc]
        have hne : (cap.parallel_capacity : ℚ) ≠ 0 :=
          Nat.cast_ne_zero.mpr (Nat.pos_iff_ne_zero.mp hc)
        simp [divQ, hne]
      · exact ⟨⊤, by rw [if_neg hc]⟩
    obtain ⟨workload, hwleq⟩ := hwl
    refine ⟨(agent, min (workload * ((100 : ℚ) : WithTop ℚ)) ((100 : ℚ) : WithTop ℚ)) :: ws,
      ?_, ?_⟩
    · simp only [get_agent_workload, hcap, hwleq, hws]
    · intro q hq
      rcases List.mem_cons.mp hq with hq | hq
      · rw [hq]
        exact min_le_right _ _
      · exact hle q hq

/-- **C5**: for every assignment mapping whose keys are registered handles,
`get_agent_workload` returns a value (it never raises — in particular the
guarded division never divides by zero, a capacity-0 handle becoming ⊤
before clamping) and every returned workload is ≤ 100. -/
theorem get_agent_workload_safe (capabilities : List (String × AgentCapability))
    (assignments : List (String × List String))
    (h : ∀ p ∈ assignments, (alistFind? capabilities p.1).isSome) :
    ∃ ws, get_agent_workload capabilities assignments = some ws
      ∧ ∀ q ∈ ws, q.2 ≤ ((100 : ℚ) : WithTop ℚ) :=
  workload_safe_aux capabilities assignments h

/-- Witness for C5 on the real registry with two registered handles (one of
them over its capacity of 1). -/
theorem get_agent_workload_safe_witness :
    ∃ ws, get_agent_workload AGENT_CAPABILITIES
        [("@claude", ["a", "b"]), ("@copilot", [])] = some ws
      ∧ ∀ q ∈ ws, q.2 ≤ ((100 : ℚ) : WithTop ℚ) :=
  get_agent_workload_safe AGENT_CAPABILITIES
    [("@claude", ["a", "b"]), ("@copilot", [])] (by decide)

/-! ## C2 / C1 — balance_workload never rebalances -/

/-- `appendAt` preserves the key sequence. -/
theorem appendAt_keys :
    ∀ (l : List (String × List String)) (key task : String)
      (r : List (String × List String)),
      appendAt l key task = some r → r.map Prod.fst = l.map Prod.fst
  | [], _, _, _, h => by simp [appendAt] at h
  | (k, v) :: rest, key, task, r, h => by
    by_cases hk : k = key
    · rw [appendAt, if_pos hk] at h
      injection h with h
      subst h
      simp
    · rw [appendAt, if_neg hk] at h
      cases hr : appendAt rest key task with
      | none => rw [hr] at h; simp at h
      | some r2 =>
        rw [hr] at h
        simp only [Option.map_some'] at h
        injection h with h
        subst h
        simp [appendAt_keys rest key task r2 hr]

/-- `appendAt` succeeds exactly when the key is present. -/
theorem appendAt_isSome :
    ∀ (l : List (String × List String)) (key task : String),
      key ∈ l.map Prod.fst → (appendAt l key task).isSome
  | [], key, task, h => by simp at h
  | (k, v) :: rest, key, task, h => by
    by_cases hk : k = key
    · rw [appendAt, if_pos hk]
      rfl
    · rw [appendAt, if_neg hk]
      have hmem : key ∈ rest.map Prod.fst := by
        simp only [List.map_cons, List.mem_cons] at h
        rcases h with h1 | h1
        · exact absurd h1.symm hk
        · exact h1
      cases ho : appendAt rest key task with
      | none =>
        have := appendAt_isSome rest key task hmem
        rw [ho] at this
        exact absurd this (by simp)
      | some r2 => rfl

/-- The max-scan returns its seed or one of the scanned keys. -/
theorem maxScan_mem :
    ∀ (l : List (String × ℚ)) (b : String) (v : ℚ),
      maxScan b v l = b ∨ maxScan b v l ∈ l.map Prod.fst
  | [], _, _ => Or.inl rfl
  | (n, x) :: rest, b, v => by
    rw [maxScan]
    by_cases h : v < x
    · rw [if_pos h]
      rcases maxScan_mem rest n x with h1 | h1
      · right; rw [h1]; simp
      · right; simp [h1]
    · rw [if_neg h]
      rcases maxScan_mem rest b v with h1 | h1
      · left; exact h1
      · right; simp [h1]

/-- For a non-empty registry, the recommended agent is a registered handle. -/
theorem recommend_agent_mem (capabilities : List (String × AgentCapability))
    (t : String) (h : capabilities ≠ []) :
    recommend_agent capabilities t ∈ capabilities.map Prod.fst := by
  match capabilities, h with
  | (n, c) :: tl, _ =>
    have hrec : recommend_agent ((n, c) :: tl) t
        = maxScan n (calc_match_score (lowerStr t) c)
            (tl.map (fun p => (p.1, calc_match_score (lowerStr t) p.2))) := rfl
    rw [hrec, List.map_cons]
    rcases maxScan_mem (tl.map fun p => (p.1, calc_match_score (lowerStr t) p.2)) n
        (calc_match_score (lowerStr t) c) with h1 | h1
    · rw [h1]; exact List.mem_cons_self _ _
    · simp only [List.map_map, Function.comp_def] at h1
      exact List.mem_cons_of_mem _ h1

/-- The assignment fold of `recommend_agents_for_tasks` succeeds on a
non-empty registry and preserves the key sequence. -/
theorem foldAssign_some (capabilities : List (String × AgentCapability))
    (hne : capabilities ≠ []) :
    ∀ (tasks : List String) (init : List (String × List String)),
      init.map Prod.fst = capabilities.map Prod.fst →
      ∃ r, tasks.foldlM
          (fun asg task => appendAt asg (recommend_agent capabilities task) task) init
        = some r ∧ r.map Prod.fst = capabilities.map Prod.fst
  | [], init, hinit => ⟨init, rfl, hinit⟩
  | t :: ts, init, hinit => by
    have hmem : recommend_agent capabilities t ∈ init.map Prod.fst := by
      rw [hinit]
      exact recommend_agent_mem capabilities t hne
    obtain ⟨a1, ha1⟩ := Option.isSome_iff_exists.mp
      (appendAt_isSome init (recommend_agent capabilities t) t hmem)
    have hkeys := appendAt_keys init _ t a1 ha1
    obtain ⟨r, hr, hrk⟩ := foldAssign_some capabilities hne ts a1 (hkeys.trans hinit)
    refine ⟨r, ?_, hrk⟩
    rw [List.foldlM_cons, ha1]
    simpa using hr

/-- `recommend_agents_for_tasks` on a non-empty registry always succeeds,
with every returned key registered. -/
theorem rec_for_tasks_some (capabilities : List (String × AgentCapability))
    (hne : capabilities ≠ []) (tasks : List String) :
    ∃ asg, recommend_agents_for_tasks capabilities tasks = some asg
      ∧ ∀ p ∈ asg, p.1 ∈ capabilities.map Prod.fst := by
  obtain ⟨r, hr, hrk⟩ := foldAssign_some capabilities hne tasks
    (capabilities.map (fun p => (p.1, ([] : List String))))
    (by simp [List.map_map, Function.comp_def])
  refine ⟨r.filter (fun p => !p.2.isEmpty), ?_, ?_⟩
  · simp only [recommend_agents_for_tasks]
    rw [hr]
    rfl
  · intro p hp
    rw [← hrk]
    exact List.mem_map_of_mem Prod.fst (List.mem_of_mem_filter hp)

/-- A present key makes the association-list lookup succeed. -/
theorem alistFind?_isSome_of_mem {β : Type} :
    ∀ (l : List (String × β)) (key : String),
      key ∈ l.map Prod.fst → (alistFind? l key).isSome
  | [], key, h => by simp at h
  | (k, v) :: tl, key, h => by
    by_cases hk : k == key
    · simp [alistFind?, List.find?_cons, hk]
    · have hmem : key ∈ tl.map Prod.fst := by
        simp only [List.map_cons, List.mem_cons] at h
        rcases h with h1 | h1
        · exact absurd (beq_iff_eq.mpr h1.symm) hk
        · exact h1
      have := alistFind?_isSome_of_mem tl key hmem
      simpa [alistFind?, List.find?_cons, hk] using this

/-- The rebalancing loop of `balance_workload` is unreachable: the clamped
workloads never exceed 100, so the loop guard is false on entry and the
initial assignment is returned unchanged (shared helper). -/
theorem balance_eq_aux (capabilities : List (String × AgentCapability))
    (tasks : List String) :
    balance_workload capabilities tasks = recommend_agents_for_tasks capabilities tasks := by
  by_cases hne : capabilities = []
  · subst hne
    cases tasks with
    | nil => rfl
    | cons t ts => rfl
  · obtain ⟨asg, hasg, hkeys⟩ := rec_for_tasks_some capabilities hne tasks
    obtain ⟨ws, hws, hle⟩ := workload_safe_aux capabilities asg
      (fun p hp => alistFind?_isSome_of_mem capabilities p.1 (hkeys p hp))
    have hguard : ws.any (fun p => decide (((100 : ℚ) : WithTop ℚ) < p.2)) = false := by
      rw [List.any_eq_false]
      intro p hp
      simp only [decide_eq_true_eq]
      exact not_lt.mpr (hle p hp)
    have hstep : ∀ (fuel : Nat) (a : List (String × List String))
        (w : List (String × WithTop ℚ)),
        w.any (fun p => decide (((100 : ℚ) : WithTop ℚ) < p.2)) = false →
        balanceLoop capabilities fuel a w = some a := by
      intro fuel a w hw
      cases fuel with
      | zero => rfl
      | succ f =>
        rw [balanceLoop, hw]
        simp
    simp only [balance_workload, hasg, hws]
    exact hstep 5 asg ws hguard

/-- **C2**: for every registry and every list of task descriptions,
`balance_workload` returns exactly the same mapping as
`recommend_agents_for_tasks`: `get_agent_workload` clamps every value to at
most 100 before the loop tests for values strictly greater than 100, so the
rebalancing loop body is unreachable. -/
theorem balance_workload_refines_initial
    (capabilities : List (String × AgentCapability)) (tasks : List String) :
    balance_workload capabilities tasks
      = recommend_agents_for_tasks capabilities tasks :=
  balance_eq_aux capabilities tasks

/-- **C1** (evaluation at the failing input): ten copies of a description
that scores highest for "@claude" (parallel capacity 1) are all still
assigned to "@claude" after `balance_workload` — no truncation,
redistribution, or dropping happens, contradicting the claimed greedy
rebalancing. -/
theorem balance_workload_keeps_overload :
    recommend_agent AGENT_CAPABILITIES "complex architecture security design" = "@claude"
    ∧ (alistFind? AGENT_CAPABILITIES "@claude").map AgentCapability.parallel_capacity
        = some 1
    ∧ balance_workload AGENT_CAPABILITIES
        (List.replicate 10 "complex architecture security design")
      = some [("@claude", List.replicate 10 "complex architecture security design")] := by
  have hrec : recommend_agent AGENT_CAPABILITIES "complex architecture security design"
      = "@claude" := by
    simp only [recommend_agent, AGENT_CAPABILITIES, List.map_cons, List.map_nil,
      calc_eq_spec_aux, score_spec_eq_nat, maxScan, Nat.cast_lt]
    decide
  refine ⟨hrec, by decide, ?_⟩
  rw [balance_eq_aux,
    show List.replicate 10 "complex architecture security design"
      = ["complex architecture security design", "complex architecture security design",
         "complex architecture security design", "complex architecture security design",
         "complex architecture security design", "complex architecture security design",
         "complex architecture security design", "complex architecture security design",
         "complex architecture security design", "complex architecture security design"]
      from rfl]
  simp only [recommend_agents_for_tasks, List.foldlM_cons, List.foldlM_nil, hrec]
  decide

/-! ## C3 — deployment targets -/

/-- The final defaulting step of the target heuristic never yields `[]`. -/
theorem default_docker_ne (l : List String) :
    (if l.isEmpty then l ++ ["docker"] else l) ≠ [] := by
  rcases l with _ | ⟨x, xs⟩
  · simp
  · simp

/-- `_determine_deployment_targets` always returns a non-empty list. -/
theorem determine_nonempty (content : String) (stack : List (String × String)) :
    determine_deployment_targets content stack ≠ [] := by
  unfold determine_deployment_targets
  exact default_docker_ne _

/-- When none of the deployment keywords occurs in the content, the target
heuristic returns exactly `["docker"]` (whatever the detected stack: a
detected backend contributes the same single "docker" element that the
final default would add). -/
theorem determine_default (content : String) (stack : List (String × String))
    (h : ∀ kw ∈ (["docker", "container", "scale", "kubernetes", "k8s", "cluster",
        "lambda", "vercel", "netlify", "serverless", "vps", "digitalocean",
        "linode", "simple"] : List String), inStr kw content = false) :
    determine_deployment_targets content stack = ["docker"] := by
  have h1 := h "docker" (by simp)
  have h2 := h "container" (by simp)
  have h3 := h "scale" (by simp)
  have h4 := h "kubernetes" (by simp)
  have h5 := h "k8s" (by simp)
  have h6 := h "cluster" (by simp)
  have h7 := h "lambda" (by simp)
  have h8 := h "vercel" (by simp)
  have h9 := h "netlify" (by simp)
  have h10 := h "serverless" (by simp)
  have h11 := h "vps" (by simp)
  have h12 := h "digitalocean" (by simp)
  have h13 := h "linode" (by simp)
  have h14 := h "simple" (by simp)
  by_cases hb : (alistFind? stack "backend").isSome
  · simp [determine_deployment_targets, h1, h2, h3, h4, h5, h6, h7, h8, h9,
      h10, h11, h12, h13, h14, hb]
  · simp [determine_deployment_targets, h1, h2, h3, h4, h5, h6, h7, h8, h9,
      h10, h11, h12, h13, h14, hb]

/-- `_analyze_tasks` never touches `deployment_targets`. -/
theorem analyze_tasks_pres (content : String) (a a' : SpecAnalysis)
    (h : analyze_tasks content a = some a') :
    a'.deployment_targets = a.deployment_targets := by
  simp only [analyze_tasks] at h
  split at h
  · injection h with h
    subst h
    rfl
  · split at h
    · exact absurd h (by simp)
    · injection h with h
      subst h
      rfl

/-- `_enhance_from_plan` never touches `deployment_targets`. -/
theorem enhance_pres (content : String) (a : SpecAnalysis) :
    (enhance_from_plan content a).deployment_targets = a.deployment_targets := rfl

/-- `_calculate_complexity` never touches `deployment_targets`. -/
theorem calc_pres (a : SpecAnalysis) :
    (calculate_complexity a).deployment_targets = a.deployment_targets := by
  simp only [calculate_complexity]
  split_ifs <;> rfl

/-- **C3 (counterexample)**: a spec directory with no `spec.md` yields an
analysis whose `deployment_targets` is empty — the claim's guarantee of
non-emptiness fails for such a directory. -/
theorem analyze_spec_missing_specmd_empty_targets :
    (analyze_spec (fun _ _ => false) none none none).map
      SpecAnalysis.deployment_targets = some [] := by
  rw [show analyze_spec (fun _ _ => false) none none none
      = some (calculate_complexity {}) from rfl]
  rw [Option.map_some', calc_pres]

/-- **C3 (amended)**: whenever `spec.md` is present, the returned analysis
has a non-empty `deployment_targets`, and when no deployment-related keyword
occurs in the spec text the list is exactly the single default element
`["docker"]`; when `spec.md` is absent the field stays empty. -/
theorem analyze_spec_targets_nonempty (reSearch : String → String → Bool)
    (c : String) (tasks_md plan_md : Option String) (a : SpecAnalysis)
    (h : analyze_spec reSearch (some c) tasks_md plan_md = some a) :
    a.deployment_targets ≠ []
    ∧ ((∀ kw ∈ (["docker", "container", "scale", "kubernetes", "k8s", "cluster",
          "lambda", "vercel", "netlify", "serverless", "vps", "digitalocean",
          "linode", "simple"] : List String), inStr kw (lowerStr c) = false) →
        a.deployment_targets = ["docker"]) := by
  have hfield : a.deployment_targets
      = (analyze_content reSearch c ({} : SpecAnalysis)).deployment_targets := by
    simp only [analyze_spec] at h
    rcases tasks_md with _ | tc
    · rcases plan_md with _ | pc
      · injection h with h
        subst h
        rw [calc_pres]
      · injection h with h
        subst h
        rw [calc_pres, enhance_pres]
    · dsimp only at h
      cases ht : analyze_tasks tc (analyze_content reSearch c {}) with
      | none =>
        rw [ht] at h
        exact absurd h (by simp)
      | some a1 =>
        rw [ht] at h
        have hpres := analyze_tasks_pres tc _ a1 ht
        rcases plan_md with _ | pc
        · injection h with h
          subst h
          rw [calc_pres, hpres]
        · injection h with h
          subst h
          rw [calc_pres, enhance_pres, hpres]
  obtain ⟨stack, hstack⟩ :
      ∃ stack, (analyze_content reSearch c ({} : SpecAnalysis)).deployment_targets
        = determine_deployment_targets (lowerStr c) stack := ⟨_, rfl⟩
  rw [hfield, hstack]
  exact ⟨determine_nonempty _ _, fun hkw => determine_default _ _ hkw⟩

/-- Witness for the amended C3 at a concrete directory containing a
`spec.md` whose text has no deployment keyword: the targets are exactly
`["docker"]`. -/
theorem analyze_spec_targets_nonempty_witness :
    ∃ a, analyze_spec (fun _ _ => false) (some "x") none none = some a
      ∧ a.deployment_targets ≠ [] ∧ a.deployment_targets = ["docker"] :=
  ⟨calculate_complexity (analyze_content (fun _ _ => false) "x" {}), rfl,
    (analyze_spec_targets_nonempty (fun _ _ => false) "x" none none _ rfl).1,
    (analyze_spec_targets_nonempty (fun _ _ => false) "x" none none _ rfl).2
      (by decide)⟩

/-! ## C7 / C8 — tasks.md analysis -/

/-- The scan counts exactly the lines matching the task-line pattern. -/
theorem scan_count :
    ∀ (lines : List String) (st : Nat × List String × List String),
      (lines.foldl scanTaskLine st).1 = st.1 + lines.countP taskLineRe
  | [], st => by simp
  | l :: ls, st => by
    rw [List.foldl_cons, List.countP_cons, scan_count ls]
    by_cases h : taskLineRe l = true
    · simp [scanTaskLine, h]
      omega
    · simp [scanTaskLine, h]

/-- The scan collects exactly the matching lines, in order. -/
theorem scan_tasks :
    ∀ (lines : List String) (st : Nat × List String × List String),
      (lines.foldl scanTaskLine st).2.1 = st.2.1 ++ lines.filter taskLineRe
  | [], st => by simp
  | l :: ls, st => by
    rw [List.foldl_cons, scan_tasks ls, List.filter_cons]
    by_cases h : taskLineRe l = true
    · simp [scanTaskLine, h]
    · simp [scanTaskLine, h]

/-- Membership in the "add if absent" set model. -/
theorem insertIfAbsent_mem (l : List String) (x y : String) :
    y ∈ insertIfAbsent l x ↔ y ∈ l ∨ y = x := by
  unfold insertIfAbsent
  by_cases hc : l.contains x = true
  · simp only [hc, if_true]
    constructor
    · exact Or.inl
    · rintro (h | h)
      · exact h
      · subst h
        simpa using hc
  · have hx : x ∉ l := by simpa using hc
    simp [hc, hx]

/-- A handle is collected by the scan iff some matching line's first
`@`-mention is that handle. -/
theorem scan_mentions_iff :
    ∀ (lines : List String) (st : Nat × List String × List String) (h : String),
      h ∈ (lines.foldl scanTaskLine st).2.2 ↔
        h ∈ st.2.2 ∨ ∃ line, line ∈ lines ∧ taskLineRe line = true
          ∧ (findMention line).map (fun g => "@" ++ g) = some h
  | [], st, h => by simp
  | l :: ls, st, h => by
    rw [List.foldl_cons, scan_mentions_iff ls]
    have hmono : ∀ (st' : Nat × List String × List String) (l' : String),
        h ∈ st'.2.2 → h ∈ (scanTaskLine st' l').2.2 := by
      intro st' l' hh
      by_cases ht : taskLineRe l' = true
      · cases hf : findMention l' with
        | none => simpa [scanTaskLine, ht, hf] using hh
        | some g =>
          simp only [scanTaskLine, ht, if_true, hf, insertIfAbsent_mem]
          exact Or.inl hh
      · simpa [scanTaskLine, ht] using hh
    constructor
    · rintro (hm | ⟨line, hline, hTask, hMen⟩)
      · by_cases ht : taskLineRe l = true
        · cases hf : findMention l with
          | none =>
            simp only [scanTaskLine, ht, if_true, hf] at hm
            exact Or.inl hm
          | some g =>
            simp only [scanTaskLine, ht, if_true, hf, insertIfAbsent_mem] at hm
            rcases hm with hm | hm
            · exact Or.inl hm
            · refine Or.inr ⟨l, List.mem_cons_self _ _, ht, ?_⟩
              rw [hf, Option.map_some', hm]
        · simp only [scanTaskLine, ht, if_false] at hm
          exact Or.inl hm
      · exact Or.inr ⟨line, List.mem_cons_of_mem _ hline, hTask, hMen⟩
    · rintro (hm | ⟨line, hline, hTask, hMen⟩)
      · exact Or.inl (hmono st l hm)
      · rcases List.mem_cons.mp hline with hl | hl
        · subst hl
          cases hf : findMention line with
          | none =>
            rw [hf] at hMen
            exact absurd hMen (by simp)
          | some g =>
            rw [hf, Option.map_some'] at hMen
            injection hMen with hMen
            left
            simp only [scanTaskLine, hTask, if_true, hf, insertIfAbsent_mem]
            exact Or.inr hMen.symm
        · exact Or.inr ⟨line, hl, hTask, hMen⟩

/-- Full behaviour of `_analyze_tasks` (shared helper): the count always
adds the number of pattern-matching lines; when some matching line carries
an `@`-mention the result is exactly the per-line first mentions, otherwise
it is the Router batch recommendation over the matching lines'
descriptions. -/
theorem analyze_tasks_spec_aux (content : String) (a : SpecAnalysis) :
    ∃ a', analyze_tasks content a = some a'
      ∧ a'.tasks_count = a.tasks_count + (splitLines content).countP taskLineRe
      ∧ ((∃ line, line ∈ splitLines content ∧ taskLineRe line = true
            ∧ (findMention line).isSome) →
          ∀ h, h ∈ a'.agents_recommended ↔
            ∃ line, line ∈ splitLines content ∧ taskLineRe line = true
              ∧ (findMention line).map (fun g => "@" ++ g) = some h)
      ∧ ((∀ line ∈ splitLines content, taskLineRe line = true → findMention line = none) →
          recommend_agents
              (((splitLines content).filter taskLineRe).map extract_task_description)
            = some a'.agents_recommended) := by
  have hcount := scan_count (splitLines content) (0, [], [])
  have htasks := scan_tasks (splitLines content) (0, [], [])
  have hment : ∀ h, h ∈ ((splitLines content).foldl scanTaskLine (0, [], [])).2.2 ↔
      ∃ line, line ∈ splitLines content ∧ taskLineRe line = true
        ∧ (findMention line).map (fun g => "@" ++ g) = some h := by
    intro h
    rw [scan_mentions_iff]
    simp
  cases hml : ((splitLines content).foldl scanTaskLine (0, [], [])).2.2 with
  | cons m ms =>
    refine ⟨{ a with
        tasks_count := a.tasks_count
          + ((splitLines content).foldl scanTaskLine (0, [], [])).1,
        agents_recommended := m :: ms }, ?_, ?_, ?_, ?_⟩
    · simp only [analyze_tasks, hml]
      rfl
    · show a.tasks_count + ((splitLines content).foldl scanTaskLine (0, [], [])).1
        = a.tasks_count + (splitLines content).countP taskLineRe
      rw [hcount]
      omega
    · intro _ h
      have hm := hment h
      rw [hml] at hm
      exact hm
    · intro hnone
      exfalso
      have hmm : m ∈ m :: ms := List.mem_cons_self _ _
      rw [← hml] at hmm
      obtain ⟨line, hline, ht, hMen⟩ := (hment m).mp hmm
      rw [hnone line hline ht] at hMen
      exact absurd hMen (by simp)
  | nil =>
    obtain ⟨asg, hasg, -⟩ := rec_for_tasks_some AGENT_CAPABILITIES (by decide)
      ((((splitLines content).foldl scanTaskLine (0, [], [])).2.1).map
        extract_task_description)
    refine ⟨{ a with
        tasks_count := a.tasks_count
          + ((splitLines content).foldl scanTaskLine (0, [], [])).1,
        agents_recommended := asg.map Prod.fst }, ?_, ?_, ?_, ?_⟩
    · simp only [analyze_tasks, hml, recommend_agents, hasg, Option.map_some']
      rfl
    · show a.tasks_count + ((splitLines content).foldl scanTaskLine (0, [], [])).1
        = a.tasks_count + (splitLines content).countP taskLineRe
      rw [hcount]
      omega
    · rintro ⟨line, hline, ht, hsome⟩
      exfalso
      obtain ⟨g, hg⟩ := Option.isSome_iff_exists.mp hsome
      have : ("@" ++ g) ∈ ((splitLines content).foldl scanTaskLine (0, [], [])).2.2 :=
        (hment ("@" ++ g)).mpr ⟨line, hline, ht, by rw [hg, Option.map_some']⟩
      rw [hml] at this
      exact absurd this (by simp)
    · intro _
      have hfe : (splitLines content).filter taskLineRe
          = ((splitLines content).foldl scanTaskLine (0, [], [])).2.1 := by
        rw [htasks]
        simp
      rw [hfe]
      simp only [recommend_agents, hasg, Option.map_some']

/-- **C7 (amended)**: `tasks_count` grows by exactly the number of lines
matching the code's pattern — `- [`, a space *or* `x`, `] T`, then at least
one digit — and every non-matching line is skipped without effect or error
(the analysis always succeeds). -/
theorem analyze_tasks_count_correct (content : String) (a : SpecAnalysis) :
    ∃ a', analyze_tasks content a = some a'
      ∧ a'.tasks_count = a.tasks_count + (splitLines content).countP taskLineRe := by
  obtain ⟨a', h1, h2, -, -⟩ := analyze_tasks_spec_aux content a
  exact ⟨a', h1, h2⟩

/-- **C7 (counterexample)**: the line `- [x] T1 fix` (checked box, a single
digit) is counted by the code but does not have the claimed shape
`- [ ] T###` (unchecked box, exactly three digits), so `tasks_count`
differs from the claimed count. -/
theorem analyze_tasks_count_mismatch :
    (analyze_tasks "- [x] T1 fix" {}).map SpecAnalysis.tasks_count
      ≠ some (specTaskLineCount "- [x] T1 fix") := by
  obtain ⟨a', h1, h2, -, -⟩ := analyze_tasks_spec_aux "- [x] T1 fix" {}
  rw [h1, Option.map_some', h2]
  decide

/-- **C8 (amended)**: if at least one matching task line carries an
`@`-mention, `agents_recommended` consists exactly of the *first* mention of
each matching line; otherwise it is the Router's batch recommendation over
the per-line task descriptions (and `tasks_count` counts the matching
lines). -/
theorem analyze_tasks_agents_correct (content : String) (a : SpecAnalysis) :
    ∃ a', analyze_tasks content a = some a'
      ∧ a'.tasks_count = a.tasks_count + (splitLines content).countP taskLineRe
      ∧ ((∃ line, line ∈ splitLines content ∧ taskLineRe line = true
            ∧ (findMention line).isSome) →
          ∀ h, h ∈ a'.agents_recommended ↔
            ∃ line, line ∈ splitLines content ∧ taskLineRe line = true
              ∧ (findMention line).map (fun g => "@" ++ g) = some h)
      ∧ ((∀ line ∈ splitLines content, taskLineRe line = true → findMention line = none) →
          recommend_agents
              (((splitLines content).filter taskLineRe).map extract_task_description)
            = some a'.agents_recommended) :=
  analyze_tasks_spec_aux content a

/-- **C8 (counterexample)**: a task line mentioning two handles contributes
only its first mention — "@qwen" is mentioned in the line but absent from
`agents_recommended`, refuting "exactly the set of mentioned handles". -/
theorem analyze_tasks_mentions_incomplete :
    (analyze_tasks "- [ ] T001 @codex @qwen build ui" {}).map
      SpecAnalysis.agents_recommended = some ["@codex"]
    ∧ taskLineRe "- [ ] T001 @codex @qwen build ui" = true
    ∧ "@qwen" ∈ lineMentions "- [ ] T001 @codex @qwen build ui"
    ∧ "@qwen" ∉ (["@codex"] : List String) := by
  refine ⟨?_, by decide, by decide, by decide⟩
  decide

/-- Witness for the amended C8: the spec's Scenario 4 — four checklist
lines, two tagged — yields `tasks_count = 4` and exactly the explicitly
mentioned handles. -/
theorem analyze_tasks_agents_correct_witness :
    ∃ a', analyze_tasks
        ("- [ ] T001 @claude Design architecture\n- [ ] T002 @codex Build UI\n- [ ] T003 Setup database\n- [ ] T004 Write tests\nnot a task")
        {} = some a'
      ∧ a'.tasks_count = 4
      ∧ ∀ h, h ∈ a'.agents_recommended ↔
          ∃ line, line ∈ splitLines
              "- [ ] T001 @claude Design architecture\n- [ ] T002 @codex Build UI\n- [ ] T003 Setup database\n- [ ] T004 Write tests\nnot a task"
            ∧ taskLineRe line = true
            ∧ (findMention line).map (fun g => "@" ++ g) = some h := by
  obtain ⟨a', h1, h2, h3, -⟩ := analyze_tasks_agents_correct
    "- [ ] T001 @claude Design architecture\n- [ ] T002 @codex Build UI\n- [ ] T003 Setup database\n- [ ] T004 Write tests\nnot a task"
    {}
  refine ⟨a', h1, ?_, h3 (by decide)⟩
  rw [h2]
  decide

end DevOps


